import Mathlib

/- Verification of rapid-dev-proxy: a shallow embedding of the routing and
forwarding logic of src/rapid_dev_proxy (config_manager.py get_route,
proxy_server.py _handle_proxy_request and health_check), with theorems
checking the natural-language specification against the code. Hosts and
paths are modelled as lists of characters so that the normalization steps
(port split, whitespace strip, lowercasing, suffix handling) are explicit. -/

namespace RapidDevProxy

/-- Host and path strings are modelled as lists of characters. -/
abbrev Str := List Char

/-- Whitespace characters removed by the Python str.strip used in get_route
(ASCII whitespace; the embedding fixes this set). -/
def pyIsSpace (c : Char) : Bool :=
  c == ' ' || c == '\t' || c == '\n' || c == '\r' || c == '\x0b' || c == '\x0c'

/-- Python str.lower on each character (ASCII case mapping). -/
def lowerStr (s : Str) : Str := s.map Char.toLower

/-- Leading-whitespace removal, the left half of Python str.strip. -/
def trimLeft (s : Str) : Str := s.dropWhile pyIsSpace

/-- Trailing-whitespace removal, the right half of Python str.strip. -/
def trimRight (s : Str) : Str := (s.reverse.dropWhile pyIsSpace).reverse

/-- Python str.strip: remove whitespace from both ends. -/
def trimBoth (s : Str) : Str := trimRight (trimLeft s)

/-- Python host.split at colon, first part: the characters before the first
colon, or the whole string when there is none. -/
def takeUntilColon (s : Str) : Str := s.takeWhile (fun c => c != ':')

/-- Boolean list-prefix test used to embed Python str.startswith. -/
def isPrefixList : Str → Str → Bool
  | [], _ => true
  | _ :: _, [] => false
  | a :: as, b :: bs => a == b && isPrefixList as bs

/-- Boolean suffix test used to embed Python str.endswith. -/
def endsList (s sfx : Str) : Bool := isPrefixList sfx.reverse s.reverse

/-- Drop the last n characters, embedding Python slicing s[: -n]. -/
def dropLastN (s : Str) (n : Nat) : Str := (s.reverse.drop n).reverse

/-- The literal suffix .localhost from get_route. -/
def localhostSfx : Str := ".localhost".toList

/-- The literal wildcard marker that get_route requires at the start of a
wildcard alias or routing key. -/
def starDot : Str := "*.".toList

/-- First occurrence split: breakOn c s finds the first c in s and returns
the parts before and after it, or none when c does not occur. -/
def breakOn (c : Char) : Str → Option (Str × Str)
  | [] => none
  | x :: xs =>
    if x == c then some ([], xs)
    else
      match breakOn c xs with
      | none => none
      | some (a, b) => some (x :: a, b)

/-- Python str.split with separator and maxsplit, for a single-character
separator. -/
def splitMax (c : Char) : Nat → Str → List Str
  | 0, s => [s]
  | Nat.succ m, s =>
    match breakOn c s with
    | none => [s]
    | some (a, b) => a :: splitMax c m b

/- Host selection, from _handle_proxy_request in proxy_server.py lines 93
to 124. The inbound signals are the optional query parameter _host, the
optional headers x-rdp-host and x-host, the request path, and the optional
Host header; absent values are none, present-but-empty values are some of
the empty string. -/

/-- Python truthiness of an optional string: present and non-empty. -/
def optTruthy (o : Option Str) : Bool :=
  match o with
  | some s => !s.isEmpty
  | none => false

/-- Python x or y on two optional strings: x when x is truthy, else y. -/
def pyOr (a b : Option Str) : Option Str :=
  match a with
  | some s => if s.isEmpty then b else some s
  | none => b

/-- The literal path marker recognized by the handler. -/
def hostMarker : Str := "__host/".toList

/-- Embedding of the path-override stage of _handle_proxy_request (lines 106
to 120), entered when no earlier source set the host: returns the pair of
the effective host extracted from the path (possibly empty) and the stripped
path. For a path starting with the __host/ marker the code splits with
maxsplit 2 and always takes the second part as the host, even when that
segment is empty, and always rewrites the stripped path; for a path starting
with the at sign the code only commits when the extracted domain is
non-empty. -/
def pathOverride (path : Str) : Str × Str :=
  if isPrefixList hostMarker path then
    match splitMax '/' 2 path with
    | _ :: d :: [] => (d, [])
    | _ :: d :: r :: _ => (d, r)
    | _ => ([], path)
  else if isPrefixList ['@'] path then
    match splitMax '/' 1 (path.drop 1) with
    | d :: rest =>
      if d.isEmpty then ([], path)
      else (d, match rest with | [] => [] | r :: _ => r)
    | [] => ([], path)
  else ([], path)

/-- Embedding of the host-selection sequence of _handle_proxy_request (lines
93 to 124): query parameter, then the two override headers combined with
Python or, then the path override when the path is non-empty, then the Host
header with empty-string default. Returns the effective host and the
stripped path. -/
def resolve_effective_host (qp hRdp hHost : Option Str) (path : Str)
    (hostHdr : Option Str) : Str × Str :=
  let eff1 : Str := if optTruthy qp then qp.getD [] else []
  let eff2 : Str :=
    if eff1.isEmpty then
      (if optTruthy (pyOr hRdp hHost) then (pyOr hRdp hHost).getD [] else [])
    else eff1
  let ps : Str × Str :=
    if eff2.isEmpty && !path.isEmpty then pathOverride path else (eff2, path)
  let eff3 : Str := if ps.1.isEmpty then hostHdr.getD [] else ps.1
  (eff3, ps.2)

/- Specification models for C1 and C4, written from the words of spec
section 4.1. -/

/-- Modelled from the spec wording: the domain embedded in the path, namely
the first segment after the __host/ marker, or the substring after the at
sign up to the next slash, and empty otherwise. -/
def specPathHost (path : Str) : Str :=
  if isPrefixList hostMarker path then (path.drop 7).takeWhile (fun c => c != '/')
  else if isPrefixList ['@'] path then (path.drop 1).takeWhile (fun c => c != '/')
  else []

/-- First non-empty string in a list, or empty when none is. -/
def firstNonempty : List Str → Str
  | [] => []
  | s :: rest => if s.isEmpty then firstNonempty rest else s

/-- Modelled from the spec wording of host-selection precedence: first
non-empty among query parameter, x-rdp-host, x-host, path domain, Host. -/
def specEffectiveHost (qp hRdp hHost : Option Str) (path : Str)
    (hostHdr : Option Str) : Str :=
  firstNonempty
    [qp.getD [], hRdp.getD [], hHost.getD [], specPathHost path, hostHdr.getD []]

/-- The amended description of the stripped path for C4: when an earlier
source (query parameter or either override header) supplies a non-empty
host, the path is unchanged; when the path starts with the __host/ marker
the stripped path is the remainder after the second slash (or empty), even
when the extracted domain segment is empty; when the path starts with the at
sign and yields a non-empty domain, the stripped path is the remainder after
the first slash following the domain (or empty); otherwise the path is
unchanged. -/
def specStrippedAmended (qp hRdp hHost : Option Str) (path : Str) : Str :=
  if optTruthy qp || optTruthy hRdp || optTruthy hHost then path
  else if isPrefixList hostMarker path then
    match breakOn '/' (path.drop 7) with
    | some (_, b) => b
    | none => []
  else if isPrefixList ['@'] path then
    if ((path.drop 1).takeWhile (fun c => c != '/')).isEmpty then path
    else
      match breakOn '/' (path.drop 1) with
      | some (_, b) => b
      | none => []
  else path

/- Routing table and target resolution, from config.py (RouteConfig,
DefaultRoute, ProxyConfig) and config_manager.py get_route (lines 60 to
101). The routes dictionary is modelled as an association list in insertion
order, since the alias and wildcard scans iterate the dictionary items in
that order; dictionary keys are unique. -/

/-- Route entry from config.py RouteConfig: target URL and alias list (the
metadata field is opaque and not modelled). -/
structure RouteConfig where
  target : Str
  aliases : List Str
deriving DecidableEq

/-- Default route from config.py DefaultRoute (error_pages not modelled). -/
structure DefaultRoute where
  target : Str
deriving DecidableEq

/-- Routing-relevant part of config.py ProxyConfig. -/
structure ProxyConfig where
  routes : List (Str × RouteConfig)
  dflt : DefaultRoute
deriving DecidableEq

/-- Embedding of the exact dictionary lookup in get_route: host in
self.config.routes followed by self.config.routes[host].target. -/
def findExact : List (Str × RouteConfig) → Str → Option Str
  | [], _ => none
  | (d, r) :: rest, h => if d == h then some r.target else findExact rest h

/-- Embedding of the per-alias test in get_route lines 87 to 92: the alias
is stripped and lowercased, then compared exactly to the host, or, when it
starts with the two characters star dot, the host is tested against the
alias text minus the leading asterisk with endswith. -/
def aliasMatchOne (host al : Str) : Bool :=
  let a := lowerStr (trimBoth al)
  a == host || (isPrefixList starDot a && endsList host (a.drop 1))

/-- Inner loop over the alias list of one route. -/
def anyAlias (host : Str) : List Str → Bool
  | [] => false
  | al :: rest => aliasMatchOne host al || anyAlias host rest

/-- Embedding of the alias scan of get_route lines 85 to 92: first route in
table order with a matching alias wins, returning its target. -/
def aliasScan (host : Str) : List (Str × RouteConfig) → Option Str
  | [] => none
  | (_, r) :: rest =>
    if anyAlias host r.aliases then some r.target else aliasScan host rest

/-- Embedding of the wildcard key scan of get_route lines 95 to 98: first
routing key that, stripped and lowercased, starts with star dot and whose
text minus the asterisk is a suffix of the host. -/
def wildcardScan (host : Str) : List (Str × RouteConfig) → Option Str
  | [] => none
  | (d, r) :: rest =>
    if isPrefixList starDot (lowerStr (trimBoth d)) &&
        endsList host ((lowerStr (trimBoth d)).drop 1) then some r.target
    else wildcardScan host rest

/-- Normalization from get_route line 74: split off the part after the
first colon, strip whitespace, lowercase. -/
def normalizeHost (host : Str) : Str := lowerStr (trimBoth (takeUntilColon host))

/-- Lookup key from get_route lines 74 to 78: the normalized host, with one
trailing .localhost suffix removed when present. -/
def routeKey (host : Str) : Str :=
  let h := normalizeHost host
  if endsList h localhostSfx then dropLastN h 10 else h

/-- Resolution cascade of get_route lines 80 to 101 on an already-normalized
key: exact key match, then alias scan, then wildcard key scan, then the
default target. -/
def lookupTarget (cfg : ProxyConfig) (h : Str) : Str :=
  match findExact cfg.routes h with
  | some t => t
  | none =>
    match aliasScan h cfg.routes with
    | some t => t
    | none =>
      match wildcardScan h cfg.routes with
      | some t => t
      | none => cfg.dflt.target

/-- Embedding of ConfigManager.get_route: normalize the host, strip one
.localhost suffix, then resolve through the cascade. -/
def get_route (cfg : ProxyConfig) (host : Str) : Str :=
  lookupTarget cfg (routeKey host)

/- Specification model for C2, written from the words of spec section 4.1
steps 1 to 6. Aliases and keys are compared case-insensitively after
whitespace stripping, as spec section 3 states for AliasPattern matching. -/

/-- Modelled from the spec wording of step 4: an alias matches when it
equals the normalized host exactly or, for an alias starting with star dot,
when the normalized host ends with the alias text minus the leading
asterisk. -/
def specAliasMatches (n a : Str) : Bool :=
  lowerStr (trimBoth a) == n ||
    (isPrefixList starDot (lowerStr (trimBoth a)) &&
      endsList n ((lowerStr (trimBoth a)).drop 1))

/-- Modelled from the spec wording of step 5: a routing key in wildcard form
matches the normalized host by the same suffix rule. -/
def specWildKey (n d : Str) : Bool :=
  isPrefixList starDot (lowerStr (trimBoth d)) &&
    endsList n ((lowerStr (trimBoth d)).drop 1)

/-- Modelled from the spec wording of steps 1 to 6: normalize, strip one
trailing .localhost, then first of exact key match, alias scan in table
order, wildcard key scan in table order, default target. -/
def specResolveTarget (table : List (Str × RouteConfig)) (dfltTarget : Str)
    (host : Str) : Str :=
  let n0 := lowerStr (trimBoth (takeUntilColon host))
  let n := if endsList n0 localhostSfx then dropLastN n0 10 else n0
  match table.find? (fun p => p.1 == n) with
  | some p => p.2.target
  | none =>
    match table.find? (fun p => p.2.aliases.any (fun a => specAliasMatches n a)) with
    | some p => p.2.target
    | none =>
      match table.find? (fun p => specWildKey n p.1) with
      | some p => p.2.target
      | none => dfltTarget

/- Forwarding failure classification, from the try and except clauses of
_handle_proxy_request (proxy_server.py lines 182 to 205). The httpx
exception classes ConnectError, TimeoutException and the generic Exception
catch-all are modelled as disjoint outcomes of a single forwarding attempt;
the code performs no retry, so one outcome maps to one response. -/

/-- Data of a successful upstream response as seen by the handler. -/
structure UpstreamResp where
  status : Nat
  body : String
deriving DecidableEq

/-- Outcome of the single forwarding attempt made by the handler. -/
inductive ForwardOutcome where
  | success (resp : UpstreamResp)
  | connectError
  | timeoutError
  | otherError
deriving DecidableEq

/-- Response returned to the caller, restricted to status and body, which is
what the failure-classification claims are about. -/
structure ProxyResponse where
  status : Nat
  body : String
deriving DecidableEq

/-- Embedding of the except clauses of _handle_proxy_request: each outcome is
mapped to the response returned to the caller together with the new value of
error_count; the success branch passes the upstream status through. -/
def classifyForward (o : ForwardOutcome) (errorCount : Nat) : ProxyResponse × Nat :=
  match o with
  | ForwardOutcome.success r => (⟨r.status, r.body⟩, errorCount)
  | ForwardOutcome.connectError => (⟨502, "Backend service unavailable"⟩, errorCount + 1)
  | ForwardOutcome.timeoutError => (⟨504, "Backend service timeout"⟩, errorCount + 1)
  | ForwardOutcome.otherError => (⟨500, "Internal proxy error"⟩, errorCount + 1)

/- Outbound header and query rewriting, from _handle_proxy_request lines 139
to 150 and 156 to 159. Header and query dictionaries are modelled as
association lists in insertion order with lookup on the first matching key;
the inbound dictionaries produced by the framework have unique keys, and so
does the configured auth_headers dictionary. -/

/-- First-match lookup in an association list, the dictionary read. -/
def getVal (k : String) : List (String × String) → Option String
  | [] => none
  | (a, b) :: t => if a = k then some b else getVal k t

/-- Python dict.pop with default: remove the entries for a key. -/
def eraseKey (k : String) : List (String × String) → List (String × String)
  | [] => []
  | (a, b) :: t => if a = k then eraseKey k t else (a, b) :: eraseKey k t

/-- Python dict assignment: replace the value at an existing key in place,
or append a new binding at the end. -/
def setKey (k v : String) : List (String × String) → List (String × String)
  | [] => [(k, v)]
  | (a, b) :: t => if a = k then (a, v) :: t else (a, b) :: setKey k v t

/-- Embedding of the header rewrite in _handle_proxy_request lines 140 to
150: copy the inbound headers, pop host, content-length, x-rdp-host and
x-host, then assign every configured auth header in order. -/
def outbound_headers (inbound auth : List (String × String)) :
    List (String × String) :=
  auth.foldl (fun acc kv => setKey kv.1 kv.2 acc)
    (eraseKey "x-host" (eraseKey "x-rdp-host"
      (eraseKey "content-length" (eraseKey "host" inbound))))

/-- Embedding of the query rewrite in _handle_proxy_request lines 158 to
159: copy the inbound query parameters and pop the _host key. -/
def forwarded_params (params : List (String × String)) :
    List (String × String) :=
  eraseKey "_host" params

/- Health endpoint, from health_check in proxy_server.py lines 63 to 71.
The code returns the current wall-clock timestamp in the uptime field; the
process start time is not recorded anywhere. -/

/-- Shape of the object returned by GET /health. -/
structure HealthResponse where
  status : String
  request_count : Nat
  error_count : Nat
  uptime : Int
deriving DecidableEq

/-- Embedding of health_check: the current counters and the current
wall-clock time now, exactly as the code builds the dictionary. -/
def health_check (requestCount errorCount : Nat) (now : Int) : HealthResponse :=
  ⟨"healthy", requestCount, errorCount, now⟩

/- Concrete configurations used by counterexamples and witnesses. -/

/-- Table with the single key x and a default with a different target. -/
def cfgSingleX : ProxyConfig :=
  ⟨[(['x'], ⟨"http://t1".toList, []⟩)], ⟨"http://t2".toList⟩⟩

/-- Table whose single route carries the alias star example.com written
without the dot after the asterisk. -/
def cfgStarNoDot : ProxyConfig :=
  ⟨[("app".toList, ⟨"http://t1".toList, ["*example.com".toList]⟩)],
    ⟨"http://t2".toList⟩⟩

/-- Small validated table used by the C7 witness. -/
def cfgApi : ProxyConfig :=
  ⟨[("api".toList, ⟨"http://a".toList, []⟩)], ⟨"http://d".toList⟩⟩

/- Theorems. -/

/-- A successful boolean prefix test decomposes the string. -/
theorem isPrefixList_drop (p s : Str) (h : isPrefixList p s = true) :
    s = p ++ s.drop p.length := by
  induction p generalizing s with
  | nil => simp
  | cons a as ih =>
    cases s with
    | nil => simp [isPrefixList] at h
    | cons b bs =>
      simp only [isPrefixList, Bool.and_eq_true, beq_iff_eq] at h
      obtain ⟨rfl, h2⟩ := h
      simpa using ih bs h2

/-- When breakOn finds no separator, takeWhile keeps the whole string. -/
theorem breakOn_none_takeWhile (c : Char) (s : Str) (h : breakOn c s = none) :
    s.takeWhile (fun x => x != c) = s := by
  induction s with
  | nil => rfl
  | cons x xs ih =>
    cases hx : x == c with
    | true => simp [breakOn, hx] at h
    | false =>
      simp only [breakOn, hx, Bool.false_eq_true, if_false] at h
      cases hb : breakOn c xs with
      | none =>
        have hx' : (x != c) = true := by simp [bne, hx]
        simp only [List.takeWhile_cons, hx', if_true]
        rw [ih hb]
      | some ab => rw [hb] at h; simp at h

/-- When breakOn finds a separator, it splits the string at its first
occurrence and takeWhile yields the part before it. -/
theorem breakOn_some_parts (c : Char) (s a b : Str)
    (h : breakOn c s = some (a, b)) :
    s.takeWhile (fun x => x != c) = a ∧ s = a ++ c :: b := by
  induction s generalizing a b with
  | nil => simp [breakOn] at h
  | cons x xs ih =>
    cases hx : x == c with
    | true =>
      simp only [breakOn, hx, if_true] at h
      obtain ⟨rfl, rfl⟩ : ([] : Str) = a ∧ xs = b := by
        constructor <;> injection h with h1 <;> · injection h1
      have hxc : x = c := by simpa using hx
      subst hxc
      constructor
      · simp [List.takeWhile_cons, bne]
      · simp
    | false =>
      simp only [breakOn, hx, Bool.false_eq_true, if_false] at h
      cases hb : breakOn c xs with
      | none => rw [hb] at h; simp at h
      | some ab =>
        rw [hb] at h
        obtain ⟨a', b'⟩ := ab
        obtain ⟨rfl, rfl⟩ : x :: a' = a ∧ b' = b := by
          constructor <;> injection h with h1 <;> · injection h1
        obtain ⟨ht, hs⟩ := ih a' b' hb
        constructor
        · have hx' : (x != c) = true := by simp [bne, hx]
          simp only [List.takeWhile_cons, hx', if_true]
          rw [ht]
        · rw [hs]; simp

/-- Unfolding of splitMax at a positive maxsplit. -/
theorem splitMax_succ (c : Char) (m : Nat) (s : Str) :
    splitMax c (m + 1) s =
      match breakOn c s with
      | none => [s]
      | some (a, b) => a :: splitMax c m b := rfl

/-- The first slash in a marker-prefixed path is the marker slash. -/
theorem breakOn_marker (t : Str) :
    breakOn '/' (hostMarker ++ t) = some ("__host".toList, t) := rfl

/-- Dropping the marker length from a marker-prefixed path leaves the rest. -/
theorem drop_marker (t : Str) : (hostMarker ++ t).drop 7 = t := rfl

/-- Unfolding of splitMax at maxsplit 1. -/
theorem splitMax_one (c : Char) (s : Str) :
    splitMax c 1 s =
      match breakOn c s with
      | none => [s]
      | some (a, b) => [a, b] := rfl

/-- Splitting a marker-prefixed path with maxsplit 2 peels off the marker. -/
theorem splitMax_two_marker (t : Str) :
    splitMax '/' 2 (hostMarker ++ t) = "__host".toList :: splitMax '/' 1 t := rfl

/-- A singleton list has its only element as first non-empty value. -/
theorem firstNonempty_singleton (x : Str) : firstNonempty [x] = x := by
  cases x <;> rfl

/-- Collapsing a nested first non-empty choice of two values. -/
theorem firstNonempty_pair_cons (x y : Str) (rest : List Str) :
    firstNonempty (firstNonempty [x, y] :: rest) = firstNonempty (x :: y :: rest) := by
  cases x <;> cases y <;> simp [firstNonempty]

/-- The host component computed by the path-override stage agrees with the
spec description of the path-embedded domain. -/
theorem pathOverride_fst (path : Str) : (pathOverride path).1 = specPathHost path := by
  cases hm : isPrefixList hostMarker path with
  | true =>
    obtain ⟨t, rfl⟩ : ∃ t, path = hostMarker ++ t :=
      ⟨path.drop 7, isPrefixList_drop hostMarker path hm⟩
    simp only [pathOverride, specPathHost, hm, if_true, drop_marker, splitMax_two_marker,
      splitMax_one]
    cases hb : breakOn '/' t with
    | none =>
      have ht := breakOn_none_takeWhile '/' t hb
      simpa using ht.symm
    | some ab =>
      obtain ⟨a, b⟩ := ab
      have ht := (breakOn_some_parts '/' t a b hb).1
      simpa using ht.symm
  | false =>
    cases ha : isPrefixList ['@'] path with
    | false => simp [pathOverride, specPathHost, hm, ha]
    | true =>
      obtain ⟨t, rfl⟩ : ∃ t, path = '@' :: t :=
        ⟨path.drop 1, isPrefixList_drop ['@'] path ha⟩
      simp only [pathOverride, specPathHost, hm, ha, if_true, Bool.false_eq_true,
        if_false, List.drop_succ_cons, List.drop_zero, splitMax_one]
      cases hb : breakOn '/' t with
      | none =>
        have ht := breakOn_none_takeWhile '/' t hb
        rw [ht]
        cases t <;> simp
      | some ab =>
        obtain ⟨a, b⟩ := ab
        have ht := (breakOn_some_parts '/' t a b hb).1
        rw [ht]
        cases a <;> simp

/-- The stripped path computed by the path-override stage, described through
breakOn: for a marker path it is the remainder after the second slash even
when the domain segment is empty; for an at path it is the remainder only
when the domain is non-empty; otherwise the path is unchanged. -/
theorem pathOverride_snd (path : Str) :
    (pathOverride path).2 =
      (if isPrefixList hostMarker path then
        (match breakOn '/' (path.drop 7) with
          | some (_, b) => b
          | none => [])
      else if isPrefixList ['@'] path then
        (if ((path.drop 1).takeWhile (fun c => c != '/')).isEmpty then path
          else
            match breakOn '/' (path.drop 1) with
            | some (_, b) => b
            | none => [])
      else path) := by
  cases hm : isPrefixList hostMarker path with
  | true =>
    obtain ⟨t, rfl⟩ : ∃ t, path = hostMarker ++ t :=
      ⟨path.drop 7, isPrefixList_drop hostMarker path hm⟩
    simp only [pathOverride, hm, if_true, drop_marker, splitMax_two_marker, splitMax_one]
    cases hb : breakOn '/' t with
    | none => simp
    | some ab => obtain ⟨a, b⟩ := ab; simp
  | false =>
    cases ha : isPrefixList ['@'] path with
    | false => simp [pathOverride, hm, ha]
    | true =>
      obtain ⟨t, rfl⟩ : ∃ t, path = '@' :: t :=
        ⟨path.drop 1, isPrefixList_drop ['@'] path ha⟩
      simp only [pathOverride, hm, ha, if_true, Bool.false_eq_true, if_false,
        List.drop_succ_cons, List.drop_zero, splitMax_one]
      cases hb : breakOn '/' t with
      | none =>
        have ht := breakOn_none_takeWhile '/' t hb
        rw [ht]
        cases t <;> simp
      | some ab =>
        obtain ⟨a, b⟩ := ab
        have ht := (breakOn_some_parts '/' t a b hb).1
        rw [ht]
        cases a <;> simp

/-- Combining the Python or of the two override headers with the truthiness
test selects the first non-empty header value. -/
theorem pyOr_select (a b : Option Str) :
    (if optTruthy (pyOr a b) then (pyOr a b).getD [] else [])
      = firstNonempty [a.getD [], b.getD []] := by
  cases a with
  | none =>
    cases b with
    | none => rfl
    | some t => cases t <;> rfl
  | some s =>
    cases s with
    | nil =>
      cases b with
      | none => rfl
      | some t => cases t <;> rfl
    | cons c cs => rfl

/-- The final stages of host selection (path override, then Host header)
implement a first non-empty choice after the earlier sources. -/
theorem resolve_tail (eff2 path : Str) (hostHdr : Option Str) :
    (if (if eff2.isEmpty && !path.isEmpty then pathOverride path
          else (eff2, path)).1.isEmpty
      then hostHdr.getD []
      else (if eff2.isEmpty && !path.isEmpty then pathOverride path
          else (eff2, path)).1)
      = firstNonempty [eff2, specPathHost path, hostHdr.getD []] := by
  cases eff2 with
  | cons c cs => simp [firstNonempty]
  | nil =>
    cases path with
    | nil =>
      have hsp : specPathHost [] = [] := rfl
      simp only [List.isEmpty_nil, Bool.not_true, Bool.and_false, Bool.false_eq_true,
        if_false, if_true, firstNonempty, hsp]
      cases h : hostHdr.getD [] <;> simp
    | cons p pr =>
      simp only [List.isEmpty_cons, List.isEmpty_nil, Bool.not_false, Bool.and_true,
        if_true]
      rw [pathOverride_fst]
      cases hsp : specPathHost (p :: pr) with
      | nil =>
        simp only [hsp, List.isEmpty_nil, if_true, firstNonempty]
        cases h : hostHdr.getD [] <;> simp
      | cons q qr => simp [firstNonempty, hsp]

/-- Claim C1: the effective host is selected by first-non-empty precedence: the
query parameter _host wins, else header x-rdp-host, else header x-host, else
the path-embedded domain, else the Host header with empty default; inputs
beyond the chosen source are ignored. -/
theorem c1_host_precedence (qp hRdp hHost : Option Str) (path : Str)
    (hostHdr : Option Str) :
    (resolve_effective_host qp hRdp hHost path hostHdr).1
      = specEffectiveHost qp hRdp hHost path hostHdr := by
  have hmain : ∀ (qp' : Option Str), optTruthy qp' = false → qp'.getD [] = [] →
      (resolve_effective_host qp' hRdp hHost path hostHdr).1
        = specEffectiveHost qp' hRdp hHost path hostHdr := by
    intro qp' h1 h2
    unfold resolve_effective_host specEffectiveHost
    simp only [h1, h2, Bool.false_eq_true, if_false, List.isEmpty_nil, if_true]
    rw [pyOr_select]
    rw [resolve_tail (firstNonempty [hRdp.getD [], hHost.getD []]) path hostHdr]
    rw [firstNonempty_pair_cons]
    simp [firstNonempty]
  cases qp with
  | none => exact hmain none rfl rfl
  | some s =>
    cases s with
    | nil => exact hmain (some []) rfl rfl
    | cons c cs =>
      unfold resolve_effective_host specEffectiveHost
      simp [optTruthy, firstNonempty]

/-- Python or of the override headers is truthy when either is truthy. -/
theorem optTruthy_pyOr (a b : Option Str) :
    optTruthy (pyOr a b) = (optTruthy a || optTruthy b) := by
  cases a with
  | none => rfl
  | some s =>
    cases s with
    | nil => cases b <;> rfl
    | cons c cs => rfl

/-- A truthy optional string has a non-empty value. -/
theorem getD_isEmpty_of_truthy (o : Option Str) (h : optTruthy o = true) :
    (o.getD []).isEmpty = false := by
  cases o with
  | none => simp [optTruthy] at h
  | some s =>
    cases s with
    | nil => simp [optTruthy] at h
    | cons c cs => rfl

/-- Claim C4 counterexample: for the request path __host/ with no query or header
override and Host header h, the effective host is h, taken from the Host
header because the path marker yields an empty domain, yet the stripped path
is empty instead of the original path, contradicting the claim that in every
case other than a selected path override the stripped path equals the
original path unchanged. -/
theorem c4_counterexample :
    (resolve_effective_host none none none ("__host/".toList)
        (some ("h".toList))).1 = "h".toList ∧
    (resolve_effective_host none none none ("__host/".toList)
        (some ("h".toList))).2 ≠ "__host/".toList := by
  decide

/-- Claim C4 amended: when the query parameter or an override header supplies a
non-empty host the path is unchanged; otherwise a path starting with the
__host/ marker always has the marker and its following segment stripped,
even when that segment is empty and host selection falls through to the Host
header; a path starting with the at sign is stripped exactly when its domain
is non-empty; all other paths are unchanged. -/
theorem c4_amended_stripped (qp hRdp hHost : Option Str) (path : Str)
    (hostHdr : Option Str) :
    (resolve_effective_host qp hRdp hHost path hostHdr).2
      = specStrippedAmended qp hRdp hHost path := by
  have hempty : ∀ (qp' : Option Str), optTruthy qp' = false → qp'.getD [] = [] →
      (resolve_effective_host qp' hRdp hHost path hostHdr).2
        = specStrippedAmended qp' hRdp hHost path := by
    intro qp' h1 h2
    unfold resolve_effective_host specStrippedAmended
    simp only [h1, Bool.false_eq_true, if_false, List.isEmpty_nil, if_true,
      Bool.false_or]
    cases hov : optTruthy (pyOr hRdp hHost) with
    | true =>
      have hne := getD_isEmpty_of_truthy _ hov
      have hor : (optTruthy hRdp || optTruthy hHost) = true := by
        rw [← optTruthy_pyOr]; exact hov
      simp [hov, hne, hor]
    | false =>
      have hor : (optTruthy hRdp || optTruthy hHost) = false := by
        rw [← optTruthy_pyOr]; exact hov
      simp only [hov, Bool.false_eq_true, if_false, hor, List.isEmpty_nil,
        Bool.true_and]
      cases path with
      | nil => rfl
      | cons p pr =>
        simp only [List.isEmpty_cons, Bool.not_false, if_true]
        exact pathOverride_snd (p :: pr)
  cases qp with
  | none => exact hempty none rfl rfl
  | some s =>
    cases s with
    | nil => exact hempty (some []) rfl rfl
    | cons c cs =>
      unfold resolve_effective_host specStrippedAmended
      simp [optTruthy]

/-- The exact-key loop is the first match over the table. -/
theorem findExact_eq_find (l : List (Str × RouteConfig)) (h : Str) :
    findExact l h = (l.find? (fun p => p.1 == h)).map (fun p => p.2.target) := by
  induction l with
  | nil => rfl
  | cons x xs ih =>
    obtain ⟨d, r⟩ := x
    cases hd : d == h <;> simp [findExact, List.find?_cons, hd, ih]

/-- The per-route alias loop is an any over the alias list, with the code
per-alias test coinciding with the spec alias-match description. -/
theorem anyAlias_eq_any (h : Str) (as : List Str) :
    anyAlias h as = as.any (fun a => specAliasMatches h a) := by
  induction as with
  | nil => rfl
  | cons a rest ih =>
    have hone : aliasMatchOne h a = specAliasMatches h a := rfl
    simp [anyAlias, List.any_cons, ih, hone]

/-- The alias scan is the first match over the table by alias. -/
theorem aliasScan_eq_find (h : Str) (l : List (Str × RouteConfig)) :
    aliasScan h l =
      (l.find? (fun p => p.2.aliases.any (fun a => specAliasMatches h a))).map
        (fun p => p.2.target) := by
  induction l with
  | nil => rfl
  | cons x xs ih =>
    obtain ⟨d, r⟩ := x
    cases ha : anyAlias h r.aliases with
    | true =>
      have ha' : r.aliases.any (fun a => specAliasMatches h a) = true := by
        rw [← anyAlias_eq_any]; exact ha
      simp [aliasScan, List.find?_cons, ha, ha']
    | false =>
      have ha' : r.aliases.any (fun a => specAliasMatches h a) = false := by
        rw [← anyAlias_eq_any]; exact ha
      simp [aliasScan, List.find?_cons, ha, ha', ih]

/-- The wildcard key scan is the first match over the table by key form. -/
theorem wildcardScan_eq_find (h : Str) (l : List (Str × RouteConfig)) :
    wildcardScan h l =
      (l.find? (fun p => specWildKey h p.1)).map (fun p => p.2.target) := by
  induction l with
  | nil => rfl
  | cons x xs ih =>
    obtain ⟨d, r⟩ := x
    have hcond : wildcardScan h ((d, r) :: xs) =
        (if specWildKey h d then some r.target else wildcardScan h xs) := rfl
    rw [hcond]
    cases hw : specWildKey h d with
    | true => simp [List.find?_cons, hw]
    | false => simp [List.find?_cons, hw, ih]

/-- The resolution cascade written through first matches over the table. -/
theorem lookupTarget_eq_spec (cfg : ProxyConfig) (n : Str) :
    lookupTarget cfg n =
      (match cfg.routes.find? (fun p => p.1 == n) with
      | some p => p.2.target
      | none =>
        match cfg.routes.find?
            (fun p => p.2.aliases.any (fun a => specAliasMatches n a)) with
        | some p => p.2.target
        | none =>
          match cfg.routes.find? (fun p => specWildKey n p.1) with
          | some p => p.2.target
          | none => cfg.dflt.target) := by
  unfold lookupTarget
  rw [findExact_eq_find, aliasScan_eq_find, wildcardScan_eq_find]
  cases cfg.routes.find? (fun p => p.1 == n) with
  | some p => rfl
  | none =>
    cases cfg.routes.find? (fun p => p.2.aliases.any (fun a => specAliasMatches n a)) with
    | some p => rfl
    | none =>
      cases cfg.routes.find? (fun p => specWildKey n p.1) with
      | some p => rfl
      | none => rfl

/-- Claim C2: target resolution normalizes the host (port split, trim, lowercase,
strip one trailing .localhost) and then returns the first of: exact
routing-key match, first alias match in table order (exact or star-dot
suffix), first wildcard routing key in table order, default target — the
code agrees with the spec description of the algorithm. -/
theorem c2_target_resolution (cfg : ProxyConfig) (host : Str) :
    get_route cfg host = specResolveTarget cfg.routes cfg.dflt.target host := by
  show lookupTarget cfg (routeKey host) = _
  rw [lookupTarget_eq_spec]
  rfl

/-- The port split leaves a colon-free string unchanged. -/
theorem takeUntilColon_of_no_colon (s : Str) (h : ':' ∉ s) :
    takeUntilColon s = s := by
  induction s with
  | nil => rfl
  | cons c cs ih =>
    have hc : c ≠ ':' := fun hh => h (hh ▸ List.mem_cons_self c cs)
    have hcs : ':' ∉ cs := fun hm => h (List.mem_cons_of_mem c hm)
    have hb : (c != ':') = true := by simp [bne, hc]
    simp only [takeUntilColon, List.takeWhile_cons, hb, if_true]
    rw [show cs.takeWhile (fun x => x != ':') = cs from ih hcs]

/-- Left trim distributes over appending the .localhost suffix. -/
theorem trimLeft_append_sfx (x : Str) :
    trimLeft (x ++ localhostSfx) = trimLeft x ++ localhostSfx := by
  induction x with
  | nil => rfl
  | cons c cs ih =>
    cases hc : pyIsSpace c with
    | true => simpa [trimLeft, List.dropWhile_cons, hc] using ih
    | false => simp [trimLeft, List.dropWhile_cons, hc]

/-- A list starting with the reversed .localhost suffix has no leading
whitespace to drop. -/
theorem dropWhile_reverse_sfx (y : Str) :
    (localhostSfx.reverse ++ y).dropWhile pyIsSpace = localhostSfx.reverse ++ y := by
  have hrev : localhostSfx.reverse = 't' :: "sohlacol.".toList := by decide
  have hsp : pyIsSpace 't' = false := rfl
  rw [hrev]
  simp [List.dropWhile_cons, hsp]

/-- Right trim leaves a string ending in .localhost unchanged. -/
theorem trimRight_append_sfx (x : Str) :
    trimRight (x ++ localhostSfx) = x ++ localhostSfx := by
  unfold trimRight
  rw [List.reverse_append, dropWhile_reverse_sfx]
  simp [List.reverse_append]

/-- Both-ends trim of a string ending in .localhost is left trim of its
stem with the suffix intact. -/
theorem trimBoth_append_sfx (x : Str) :
    trimBoth (x ++ localhostSfx) = trimLeft x ++ localhostSfx := by
  unfold trimBoth
  rw [trimLeft_append_sfx, trimRight_append_sfx]

/-- Lowercasing distributes over append. -/
theorem lowerStr_append (a b : Str) :
    lowerStr (a ++ b) = lowerStr a ++ lowerStr b := by
  unfold lowerStr
  exact List.map_append _ a b

/-- The .localhost suffix is already lowercase. -/
theorem lowerStr_sfx : lowerStr localhostSfx = localhostSfx := by decide

/-- Every list is a boolean prefix of itself extended. -/
theorem isPrefixList_self_append (p t : Str) : isPrefixList p (p ++ t) = true := by
  induction p with
  | nil => rfl
  | cons a as ih => simp [isPrefixList, ih]

/-- Appending the .localhost suffix makes the suffix test succeed. -/
theorem endsList_append_sfx (x : Str) :
    endsList (x ++ localhostSfx) localhostSfx = true := by
  unfold endsList
  rw [List.reverse_append]
  exact isPrefixList_self_append _ _

/-- Dropping the last ten characters removes exactly the suffix. -/
theorem dropLastN_append_sfx (x : Str) : dropLastN (x ++ localhostSfx) 10 = x := by
  unfold dropLastN
  rw [List.reverse_append]
  have h10 : localhostSfx.reverse.length = 10 := by decide
  rw [← h10, List.drop_left, List.reverse_reverse]

/-- The lookup key of a colon-free host extended with .localhost is the
lowercased left-trimmed stem. -/
theorem routeKey_append_sfx (h' : Str) (hc : ':' ∉ h') :
    routeKey (h' ++ localhostSfx) = lowerStr (trimLeft h') := by
  unfold routeKey normalizeHost
  have hnc : ':' ∉ h' ++ localhostSfx := by
    intro hm
    rcases List.mem_append.mp hm with hm1 | hm2
    · exact hc hm1
    · revert hm2; decide
  rw [takeUntilColon_of_no_colon _ hnc, trimBoth_append_sfx, lowerStr_append,
    lowerStr_sfx]
  simp [endsList_append_sfx, dropLastN_append_sfx]

/-- The lookup key of a colon-free host with no trailing whitespace and no
.localhost form of its own is the lowercased left-trimmed host itself. -/
theorem routeKey_plain (h' : Str) (hc : ':' ∉ h')
    (ht : trimBoth h' = trimLeft h')
    (hs : endsList (lowerStr (trimBoth h')) localhostSfx = false) :
    routeKey h' = lowerStr (trimLeft h') := by
  unfold routeKey normalizeHost
  rw [takeUntilColon_of_no_colon _ hc, ht]
  rw [ht] at hs
  simp [hs]

/-- Claim C6 counterexample: the host x.localhost.localhost ends with .localhost
and removing that trailing suffix gives x.localhost, yet with the table
holding the single key x the two hosts resolve to different targets,
because the code strips only one .localhost suffix: the double form looks
up x.localhost and falls to the default, while the single form looks up x
and finds the route. -/
theorem c6_counterexample :
    endsList ("x.localhost.localhost".toList) localhostSfx = true ∧
    dropLastN ("x.localhost.localhost".toList) 10 = "x.localhost".toList ∧
    get_route cfgSingleX ("x.localhost.localhost".toList) = "http://t2".toList ∧
    get_route cfgSingleX ("x.localhost".toList) = "http://t1".toList ∧
    ("http://t2".toList : Str) ≠ "http://t1".toList := by
  decide

/-- Claim C6 amended: for every host of the form stem ++ .localhost where the stem
contains no colon, gains nothing from a right trim, and does not itself end
with .localhost after trimming and lowercasing, resolving the host equals
resolving the stem. -/
theorem c6_amended_localhost (cfg : ProxyConfig) (h' : Str) (hc : ':' ∉ h')
    (ht : trimBoth h' = trimLeft h')
    (hs : endsList (lowerStr (trimBoth h')) localhostSfx = false) :
    get_route cfg (h' ++ localhostSfx) = get_route cfg h' := by
  unfold get_route
  rw [routeKey_append_sfx h' hc, routeKey_plain h' hc ht hs]

/-- Witness for C6 amended: stripping .localhost from x.localhost resolves
like the bare stem x. -/
theorem c6_amended_localhost_witness :
    get_route cfgSingleX (['x'] ++ localhostSfx) = get_route cfgSingleX ['x'] :=
  c6_amended_localhost cfgSingleX ['x'] (by decide) (by decide) (by decide)

/-- A successful exact-key lookup returns the target of a table entry. -/
theorem findExact_mem (l : List (Str × RouteConfig)) (h : Str) (t : Str)
    (hf : findExact l h = some t) : ∃ p ∈ l, t = p.2.target := by
  induction l with
  | nil => simp [findExact] at hf
  | cons x xs ih =>
    obtain ⟨d, r⟩ := x
    by_cases hd : (d == h) = true
    · simp only [findExact, hd, if_true, Option.some.injEq] at hf
      exact ⟨(d, r), List.mem_cons_self _ _, hf.symm⟩
    · simp only [findExact, hd, if_false] at hf
      obtain ⟨p, hp, hpt⟩ := ih hf
      exact ⟨p, List.mem_cons_of_mem _ hp, hpt⟩

/-- A successful alias scan returns the target of a table entry. -/
theorem aliasScan_mem (l : List (Str × RouteConfig)) (h : Str) (t : Str)
    (hf : aliasScan h l = some t) : ∃ p ∈ l, t = p.2.target := by
  induction l with
  | nil => simp [aliasScan] at hf
  | cons x xs ih =>
    obtain ⟨d, r⟩ := x
    by_cases ha : anyAlias h r.aliases = true
    · simp only [aliasScan, ha, if_true, Option.some.injEq] at hf
      exact ⟨(d, r), List.mem_cons_self _ _, hf.symm⟩
    · simp only [aliasScan, ha, if_false] at hf
      obtain ⟨p, hp, hpt⟩ := ih hf
      exact ⟨p, List.mem_cons_of_mem _ hp, hpt⟩

/-- A successful wildcard key scan returns the target of a table entry. -/
theorem wildcardScan_mem (l : List (Str × RouteConfig)) (h : Str) (t : Str)
    (hf : wildcardScan h l = some t) : ∃ p ∈ l, t = p.2.target := by
  induction l with
  | nil => simp [wildcardScan] at hf
  | cons x xs ih =>
    obtain ⟨d, r⟩ := x
    have hcond : wildcardScan h ((d, r) :: xs) =
        (if specWildKey h d then some r.target else wildcardScan h xs) := rfl
    rw [hcond] at hf
    by_cases hw : specWildKey h d = true
    · simp only [hw, if_true, Option.some.injEq] at hf
      exact ⟨(d, r), List.mem_cons_self _ _, hf.symm⟩
    · simp only [hw, if_false] at hf
      obtain ⟨p, hp, hpt⟩ := ih hf
      exact ⟨p, List.mem_cons_of_mem _ hp, hpt⟩

/-- Claim C7: route lookup is a total function that returns a non-empty target for
every host string whenever the validated configuration guarantees non-empty
targets (every route target and the default target start with an http
scheme), so the 404 branch guarded by falsiness of the returned target is
unreachable; and when no exact key, alias, or wildcard key matches, the
result is exactly the default target. -/
theorem c7_no_route_not_found (cfg : ProxyConfig) (host : Str)
    (hd : cfg.dflt.target ≠ [])
    (hr : ∀ p ∈ cfg.routes, p.2.target ≠ []) :
    get_route cfg host ≠ [] ∧
    ((findExact cfg.routes (routeKey host) = none ∧
      aliasScan (routeKey host) cfg.routes = none ∧
      wildcardScan (routeKey host) cfg.routes = none) →
      get_route cfg host = cfg.dflt.target) := by
  constructor
  · unfold get_route lookupTarget
    cases h1 : findExact cfg.routes (routeKey host) with
    | some t =>
      obtain ⟨p, hp, rfl⟩ := findExact_mem _ _ _ h1
      exact hr p hp
    | none =>
      cases h2 : aliasScan (routeKey host) cfg.routes with
      | some t =>
        obtain ⟨p, hp, rfl⟩ := aliasScan_mem _ _ _ h2
        exact hr p hp
      | none =>
        cases h3 : wildcardScan (routeKey host) cfg.routes with
        | some t =>
          obtain ⟨p, hp, rfl⟩ := wildcardScan_mem _ _ _ h3
          exact hr p hp
        | none => exact hd
  · intro ⟨h1, h2, h3⟩
    unfold get_route lookupTarget
    rw [h1, h2, h3]

/-- Witness for C7: with a one-route validated table and an unmatched host,
the resolved target is non-empty, and equals the default when the three
scans all miss. -/
theorem c7_no_route_not_found_witness :
    get_route cfgApi ("zzz".toList) ≠ [] ∧
    ((findExact cfgApi.routes (routeKey ("zzz".toList)) = none ∧
      aliasScan (routeKey ("zzz".toList)) cfgApi.routes = none ∧
      wildcardScan (routeKey ("zzz".toList)) cfgApi.routes = none) →
      get_route cfgApi ("zzz".toList) = cfgApi.dflt.target) :=
  c7_no_route_not_found cfgApi ("zzz".toList) (by decide) (by decide)

/-- Claim C8 counterexample: with a route whose alias is literally star
example.com without a dot after the asterisk and target http t1, resolving
the host evilexample.com does not return that route target: the wildcard
branch requires the alias to start with star dot, so the host falls to the
default http t2, contradicting the claim. -/
theorem c8_counterexample :
    get_route cfgStarNoDot ("evilexample.com".toList) = cfgStarNoDot.dflt.target ∧
    get_route cfgStarNoDot ("evilexample.com".toList) ≠ "http://t1".toList := by
  decide

/-- Claim C8 amended: the wildcard-suffix alias match fires only for aliases that
start with star dot and it keeps the dot in the compared suffix: the alias
written star example.com without the dot matches nothing by the wildcard
rule, evilexample.com matches neither that alias nor star dot example.com,
and the table routes evilexample.com to the default target. -/
theorem c8_amended_wildcard :
    isPrefixList starDot (lowerStr (trimBoth ("*example.com".toList))) = false ∧
    aliasMatchOne ("evilexample.com".toList) ("*example.com".toList) = false ∧
    aliasMatchOne ("evilexample.com".toList) ("*.example.com".toList) = false ∧
    get_route cfgStarNoDot ("evilexample.com".toList) = cfgStarNoDot.dflt.target := by
  decide

/-- Reading a dictionary after popping a key: the popped key reads none,
every other key is unchanged. -/
theorem getVal_eraseKey (k k' : String) (l : List (String × String)) :
    getVal k (eraseKey k' l) = if k = k' then none else getVal k l := by
  induction l with
  | nil => simp [eraseKey, getVal]
  | cons x t ih =>
    obtain ⟨a, b⟩ := x
    by_cases hak : a = k' <;> by_cases hk : a = k
    · subst hak; subst hk
      simp [eraseKey, getVal, ih]
    · subst hak
      have hk' : ¬ k = a := fun h => hk h.symm
      simp [eraseKey, getVal, ih, hk, hk']
    · subst hk
      simp [eraseKey, getVal, hak]
    · have hk' : ¬ k = a := fun h => hk h.symm
      simp [eraseKey, getVal, hak, hk, hk', ih]

/-- Reading a dictionary after an assignment: the assigned key reads the new
value, every other key is unchanged. -/
theorem getVal_setKey (k k' v : String) (l : List (String × String)) :
    getVal k (setKey k' v l) = if k = k' then some v else getVal k l := by
  induction l with
  | nil =>
    by_cases hk : k = k'
    · simp [setKey, getVal, hk]
    · have hk' : ¬ k' = k := fun h => hk h.symm
      simp [setKey, getVal, hk, hk']
  | cons x t ih =>
    obtain ⟨a, b⟩ := x
    by_cases hak : a = k' <;> by_cases hk : a = k
    · subst hak; subst hk
      simp [setKey, getVal]
    · subst hak
      have hk' : ¬ k = a := fun h => hk h.symm
      simp [setKey, getVal, hk, hk']
    · subst hk
      simp [setKey, getVal, hak]
    · have hk' : ¬ k = a := fun h => hk h.symm
      simp [setKey, getVal, hak, hk, hk', ih]

/-- A key outside the key column reads none. -/
theorem getVal_eq_none_of_not_mem (k : String) (l : List (String × String))
    (h : k ∉ l.map Prod.fst) : getVal k l = none := by
  induction l with
  | nil => rfl
  | cons x t ih =>
    obtain ⟨a, b⟩ := x
    simp only [List.map_cons, List.mem_cons] at h
    push_neg at h
    have ha : ¬ a = k := fun hh => h.1 hh.symm
    simp only [getVal, if_neg ha]
    exact ih h.2

/-- Folding dictionary assignments over a unique-keyed auth list: a key in
the auth list reads its configured value, any other key reads through to
the accumulator. -/
theorem getVal_foldl_setKey (k : String) (auth acc : List (String × String))
    (hnd : (auth.map Prod.fst).Nodup) :
    getVal k (auth.foldl (fun acc kv => setKey kv.1 kv.2 acc) acc)
      = (match getVal k auth with
        | some v => some v
        | none => getVal k acc) := by
  induction auth generalizing acc with
  | nil => simp [getVal]
  | cons kv rest ih =>
    obtain ⟨a, b⟩ := kv
    simp only [List.map_cons, List.nodup_cons] at hnd
    simp only [List.foldl_cons]
    rw [ih _ hnd.2]
    by_cases hk : k = a
    · subst hk
      have hnone : getVal k rest = none :=
        getVal_eq_none_of_not_mem k rest hnd.1
      rw [hnone]
      simp [getVal, getVal_setKey]
    · have hk' : ¬ a = k := fun h => hk h.symm
      have hcons : getVal k ((a, b) :: rest) = getVal k rest := by
        simp [getVal, hk']
      rw [hcons]
      cases hv : getVal k rest with
      | some v => rfl
      | none => simp [getVal_setKey, hk]

/-- Claim C5: outbound headers are the inbound headers with Host, Content-Length,
x-rdp-host and x-host removed and the configured auth headers merged in,
the configured value winning on key collision; outbound query parameters
are the inbound ones without the _host key; the override signals never
reach the upstream request. -/
theorem c5_forward_rewrite (inbound auth params : List (String × String))
    (k : String) (hnd : (auth.map Prod.fst).Nodup) :
    getVal k (outbound_headers inbound auth)
      = (match getVal k auth with
        | some v => some v
        | none =>
          if k = "host" ∨ k = "content-length" ∨ k = "x-rdp-host" ∨ k = "x-host"
          then none else getVal k inbound) ∧
    getVal k (forwarded_params params)
      = (if k = "_host" then none else getVal k params) := by
  constructor
  · unfold outbound_headers
    rw [getVal_foldl_setKey k auth _ hnd]
    cases hv : getVal k auth with
    | some v => rfl
    | none =>
      simp only [getVal_eraseKey]
      by_cases h1 : k = "host" <;> by_cases h2 : k = "content-length" <;>
        by_cases h3 : k = "x-rdp-host" <;> by_cases h4 : k = "x-host" <;>
        simp [h1, h2, h3, h4]
  · unfold forwarded_params
    rw [getVal_eraseKey]

/-- Witness for C5 at a concrete request: the inbound x-rdp-host value does
not reach the outbound headers and the _host query parameter does not reach
the outbound query. -/
theorem c5_forward_rewrite_witness :
    getVal "x-rdp-host"
        (outbound_headers [("x-rdp-host", "secret"), ("accept", "1")]
          [("authorization", "tok")]) = none ∧
    getVal "_host" (forwarded_params [("_host", "api"), ("id", "1")]) = none := by
  constructor
  · exact (c5_forward_rewrite [("x-rdp-host", "secret"), ("accept", "1")]
      [("authorization", "tok")] [("_host", "api"), ("id", "1")] "x-rdp-host"
      (by decide)).1.trans (by decide)
  · exact (c5_forward_rewrite [("x-rdp-host", "secret"), ("accept", "1")]
      [("authorization", "tok")] [("_host", "api"), ("id", "1")] "_host"
      (by decide)).2.trans (by decide)

/-- Claim C3: forwarding failures are classified with no retry: connection errors
give exactly 502 with body Backend service unavailable, timeouts give
exactly 504 with body Backend service timeout, any other failure gives
exactly 500 with body Internal proxy error; each failure path adds exactly 1
to errorCount and a successful forward leaves errorCount unchanged. -/
theorem c3_failure_classification (ec : Nat) :
    classifyForward ForwardOutcome.connectError ec
      = (⟨502, "Backend service unavailable"⟩, ec + 1) ∧
    classifyForward ForwardOutcome.timeoutError ec
      = (⟨504, "Backend service timeout"⟩, ec + 1) ∧
    classifyForward ForwardOutcome.otherError ec
      = (⟨500, "Internal proxy error"⟩, ec + 1) ∧
    (∀ r : UpstreamResp, (classifyForward (ForwardOutcome.success r) ec).2 = ec) := by
  refine ⟨rfl, rfl, rfl, fun r => rfl⟩

/-- Claim C10: GET /health reports status healthy together with the current
request and error counters, and its uptime field is the current absolute
wall-clock timestamp now, not the elapsed time since a process start. -/
theorem c10_health_uptime (rc ec : Nat) (now : Int) :
    health_check rc ec now = ⟨"healthy", rc, ec, now⟩ ∧
    (∀ start : Int, start ≠ 0 → (health_check rc ec now).uptime ≠ now - start) := by
  refine ⟨rfl, fun start hs => ?_⟩
  simp only [health_check]
  omega

/-- Witness for C10 at concrete inputs: with counters 5 and 2 at wall-clock
time 100 and a nonzero start time 30, uptime is 100 and differs from
the elapsed time 70. -/
theorem c10_health_uptime_witness :
    health_check 5 2 100 = ⟨"healthy", 5, 2, 100⟩ ∧
    (health_check 5 2 100).uptime ≠ 100 - 30 := by
  refine ⟨(c10_health_uptime 5 2 100).1, (c10_health_uptime 5 2 100).2 30 (by decide)⟩

end RapidDevProxy
